import Mathlib

set_option maxRecDepth 10000

/-!
Shallow embedding of the transcript-formatting core of
`src/fireflies-copy-tools.user.js` (the v1.0.2 variant, lines 117-211):
`formatTime`, the speaker-name resolution, the header construction and the
single-pass caption-grouping loop of `formatTranscript`.

Modelling conventions:
* JS strings are Lean `String`s; `String.prototype.trim` is modelled explicitly
  at the character-list level (`jsTrim`), as is `padStart(2, "0")` and
  `split("?")[0]`.
* Optional JS string fields (`title`, `date`, attendee fields, the `meetingUrl`
  argument) are modelled as `String` with `""` standing for an absent value:
  the code only ever tests their truthiness or interpolates them when truthy,
  and an absent field and an empty string are falsy alike.
* `captions` and `speakerMeta` keep an explicit presence bit (`Option`),
  because line 124 tests them with `!` and an empty array or object is truthy
  while an absent field is not.
* `speaker_id` is a zero-based natural number, `time` a natural number of
  seconds (the claims only concern integral nonnegative times, where JS float
  `Math.floor` division agrees with `Nat` division).
-/

namespace Fireflies

/-- Character-level left trim: drop leading whitespace (JS `trimStart`). -/
def ltrimC (l : List Char) : List Char := l.dropWhile Char.isWhitespace

/-- Character-level right trim: drop trailing whitespace (JS `trimEnd`). -/
def rtrimC (l : List Char) : List Char := (l.reverse.dropWhile Char.isWhitespace).reverse

/-- Model of JavaScript `String.prototype.trim`: remove leading and trailing whitespace. -/
def jsTrim (s : String) : String := ⟨rtrimC (ltrimC s.data)⟩

/-- Model of JavaScript `String.prototype.trimStart`. -/
def jsTrimStart (s : String) : String := ⟨ltrimC s.data⟩

/-- Model of JavaScript `Array.prototype.join("\n")`. -/
def joinLines : List String → String
  | [] => ""
  | [s] => s
  | s :: t :: rest => s ++ "\n" ++ joinLines (t :: rest)

/-- Join a list of strings with single spaces (used by the spec-side description
of one speaker run: `Array.prototype.join(" ")`). -/
def joinSpace : List String → String
  | [] => ""
  | [s] => s
  | s :: t :: rest => s ++ " " ++ joinSpace (t :: rest)

/-- Model of JavaScript `String.prototype.padStart(2, "0")`. -/
def padStart2 (s : String) : String :=
  if s.length < 2 then ⟨List.replicate (2 - s.length) '0' ++ s.data⟩ else s

/-- Model of `url.split("?")[0]`: the part of the string before the first
question mark (the whole string when it has none). -/
def stripQuery (s : String) : String := ⟨s.data.takeWhile (fun c => c ≠ '?')⟩

/-- Embedding of `formatTime` (lines 117-121): minutes and seconds by `Nat`
division and remainder, each zero-padded to width two, joined by a colon. -/
def formatTime (totalSeconds : Nat) : String :=
  padStart2 (Nat.repr (totalSeconds / 60)) ++ ":" ++ padStart2 (Nat.repr (totalSeconds % 60))

/-- One caption of the meeting record. The `index` and `endTime` fields present
in the API payload are never read by the formatting code and are omitted. -/
structure Caption where
  speaker_id : Nat
  sentence : String
  time : Nat
deriving Repr, DecidableEq

/-- One attendee of the meeting record; `""` stands for an absent field. -/
structure Attendee where
  displayName : String
  name : String
  email : String
deriving Repr, DecidableEq

/-- The meeting record consumed by `formatTranscript`. `speakerMeta` is the JS
object mapping one-based stringified speaker ids to display names, modelled as
an association list. -/
structure MeetingNote where
  captions : Option (List Caption)
  speakerMeta : Option (List (String × String))
  title : String
  date : String
  attendees : List Attendee
deriving Repr, DecidableEq

/-- Embedding of the speaker-name resolution of lines 177-178. A property
access on a missing key is `undefined` (falsy) and an empty-string value is
also falsy, so both fall through the `||` to the fallback label. -/
def resolveSpeakerName (speakerMeta : List (String × String)) (speakerId : Nat) : String :=
  match speakerMeta.lookup (Nat.repr (speakerId + 1)) with
  | some name => if name = "" then "Unknown Speaker " ++ Nat.repr (speakerId + 1) else name
  | none => "Unknown Speaker " ++ Nat.repr (speakerId + 1)

/-- Text-accumulation step of lines 195-199. -/
def accStep (acc text : String) : String := if acc = "" then text else acc ++ " " ++ text

/-- The flush of lines 182-184 (also lines 202-204): when the accumulator is
non-empty, append its trimmed content plus a newline to the body. -/
def flushAcc (body acc : String) : String :=
  if acc ≠ "" then body ++ jsTrim acc ++ "\n" else body

/-- The two header lines emitted on a speaker change (lines 190-191): the
timestamp line and the resolved speaker-name line. -/
def runHeader (speakerMeta : List (String × String)) (caption : Caption) : String :=
  formatTime caption.time ++ "\n" ++ resolveSpeakerName speakerMeta caption.speaker_id ++ "\n"

/-- The mutable state of the caption loop of lines 171-200. -/
structure LoopState where
  body : String
  lastSpeakerId : Option Nat
  acc : String
deriving Repr, DecidableEq

/-- Initial value of `lastSpeakerId` (line 172): JS `null`, the "no speaker
yet" sentinel, which `!==` distinguishes from every numeric id. -/
def initialLastSpeakerId : Option Nat := none

/-- One iteration of the caption loop (lines 175-200): on a speaker change,
flush the accumulator, emit a blank-line separator when the body already has
content, then the timestamp line and the speaker-name line; in either case the
caption text is accumulated (cleared-then-set on a change). -/
def bodyStep (speakerMeta : List (String × String)) (st : LoopState) (caption : Caption) :
    LoopState :=
  if st.lastSpeakerId = some caption.speaker_id then
    { st with acc := accStep st.acc caption.sentence }
  else
    let body1 := flushAcc st.body st.acc
    let body2 := if body1 ≠ "" then body1 ++ "\n" else body1
    { body := body2 ++ runHeader speakerMeta caption,
      lastSpeakerId := some caption.speaker_id, acc := caption.sentence }

/-- The flush after the loop (lines 202-204). -/
def finishBody (st : LoopState) : String :=
  flushAcc st.body st.acc

/-- The transcript body built by the caption loop, including the final flush. -/
def formatBody (speakerMeta : List (String × String)) (captions : List Caption) : String :=
  finishBody (captions.foldl (bodyStep speakerMeta) ⟨"", initialLastSpeakerId, ""⟩)

/-- Embedding of the attendee display-line computation (the `map` body of lines
149-160); `null` results are `none` and are removed by `filter(Boolean)`. -/
def attendeeLine (attendee : Attendee) : Option String :=
  let name := if attendee.displayName ≠ "" then attendee.displayName else attendee.name
  let email := attendee.email
  if name ≠ "" ∧ email ≠ "" then some (name ++ " " ++ email)
  else if name ≠ "" then some name
  else if email ≠ "" then some email
  else none

/-- Embedding of the header construction (lines 131-169). -/
def headerOf (note : MeetingNote) (meetingUrl : String) : String :=
  let header := if note.title ≠ "" then
      (if note.date ≠ "" then note.title ++ " | " ++ note.date else note.title)
    else ""
  let header := if meetingUrl ≠ "" then
      (if header ≠ "" then header ++ "\n" ++ stripQuery meetingUrl else stripQuery meetingUrl)
    else header
  if note.attendees ≠ [] then
    let attendeesList := joinLines (note.attendees.filterMap attendeeLine)
    if attendeesList ≠ "" then
      (if header ≠ "" then header ++ "\n\n" ++ attendeesList else attendeesList)
    else header
  else header

/-- The fixed diagnostic string of line 126. -/
def missingDataError : String := "Error: Could not format transcript due to missing data."

/-- Embedding of `formatTranscript` (lines 123-211). The optional `meetingUrl`
parameter is a string with `""` standing for the absent argument (both are
falsy at line 139). -/
def formatTranscript (meetingNote : Option MeetingNote) (meetingUrl : String) : String :=
  match meetingNote with
  | none => missingDataError
  | some note =>
    match note.captions, note.speakerMeta with
    | some captions, some speakerMeta =>
      let header := headerOf note meetingUrl
      let body := formatBody speakerMeta captions
      if header ≠ "" then jsTrim (header ++ "\n\n" ++ jsTrim body) else jsTrim body
    | _, _ => missingDataError

/-! ### Spec-side definitions
These follow the wording of the specification, to be compared with the
definitions embedded from the source. -/

/-- Maximal runs of consecutive captions sharing one speaker id (the spec
glossary notion of a "speaker run"). -/
def splitRuns : List Caption → List (List Caption)
  | [] => []
  | [c] => [[c]]
  | c :: c2 :: cs =>
    match splitRuns (c2 :: cs) with
    | [] => [[c]]
    | r :: rs => if c.speaker_id = c2.speaker_id then (c :: r) :: rs else [c] :: r :: rs

/-- One run's body segment as the spec describes it: a `MM:SS` timestamp line,
a resolved speaker-name line, and then — when some caption of the run has
non-empty text — the texts of the whole run space-joined, as one trimmed
block. -/
def runSegment (speakerMeta : List (String × String)) : List Caption → String
  | [] => ""
  | c :: cs =>
    formatTime c.time ++ "\n" ++ resolveSpeakerName speakerMeta c.speaker_id ++ "\n" ++
      (if ((c :: cs).map Caption.sentence).any (fun t => t != "") then
        jsTrim (joinSpace ((c :: cs).map Caption.sentence)) ++ "\n"
      else "")

/-- The body as the spec describes it: one segment per maximal same-speaker
run, in original order, separated by blank lines. -/
def bodySpec (speakerMeta : List (String × String)) (captions : List Caption) : String :=
  joinLines ((splitRuns captions).map (runSegment speakerMeta))

/-- Zero-padding of a number to at least two digits, written independently of
`padStart`: a literal leading `"0"` for a single-digit number. -/
def zeroPad2 (n : Nat) : String := if n < 10 then "0" ++ Nat.repr n else Nat.repr n

/-- Header step 1-2 of the spec: the title when present, with the date joined
by a pipe only when both title and date are present. -/
def titleDatePart (title date : String) : String :=
  if title ≠ "" then (if date ≠ "" then title ++ " | " ++ date else title) else ""

/-- Header step 3 of the spec: the supplied source location, query suffix
stripped, on a new line — or as the whole header when nothing precedes it. -/
def locationStep (sofar url : String) : String :=
  if url ≠ "" then
    (if sofar ≠ "" then sofar ++ "\n" ++ stripQuery url else stripQuery url)
  else sofar

/-- Header step 4 of the spec: the surviving attendee lines, newline-joined,
appended as a block after one blank line — or as the whole header when nothing
precedes them. -/
def attendeesStep (sofar : String) (attendees : List Attendee) : String :=
  let block := joinLines (attendees.filterMap attendeeLine)
  if block ≠ "" then (if sofar ≠ "" then sofar ++ "\n\n" ++ block else block)
  else sofar

/-- The header as the spec describes it: the four steps in order. -/
def headerSpec (note : MeetingNote) (url : String) : String :=
  attendeesStep (locationStep (titleDatePart note.title note.date) url) note.attendees

/-- Combine two pieces with a separating newline, skipping empty pieces (used
to state how run segments compose into the body). -/
def joinNE (a b : String) : String :=
  if a = "" then b else if b = "" then a else a ++ "\n" ++ b

/-- Well-formedness of a run decomposition relative to the previous speaker id:
every run is non-empty and single-speaker, and each run's speaker differs from
the speaker before it (`none` for "no speaker yet"). -/
def RunsWF : Option Nat → List (List Caption) → Prop
  | _, [] => True
  | _, [] :: _ => False
  | last, (c :: cr) :: rs =>
    (∀ x ∈ cr, x.speaker_id = c.speaker_id) ∧ some c.speaker_id ≠ last ∧
      RunsWF (some c.speaker_id) rs

/-! ### String and trimming lemmas -/

theorem str_eq_empty_iff (s : String) : s = "" ↔ s.data = [] := by
  constructor
  · rintro rfl; rfl
  · intro h; exact String.ext h

theorem append_eq_empty_iff (a b : String) : a ++ b = "" ↔ a = "" ∧ b = "" := by
  rw [str_eq_empty_iff, String.data_append, List.append_eq_nil,
    ← str_eq_empty_iff, ← str_eq_empty_iff]

theorem empty_append (s : String) : "" ++ s = s := by
  apply String.ext; simp

theorem append_empty (s : String) : s ++ "" = s := by
  apply String.ext; simp

theorem dropWhile_head_not {α : Type} (p : α → Bool) (l : List α) (c : α) (t : List α)
    (h : l.dropWhile p = c :: t) : p c = false := by
  have hh := List.head?_dropWhile_not p l
  rw [h] at hh
  simpa using hh

theorem ltrimC_nil : ltrimC [] = [] := rfl

theorem rtrimC_nil : rtrimC [] = [] := rfl

theorem ltrimC_append_ws (w l : List Char) (h : ∀ c ∈ w, c.isWhitespace = true) :
    ltrimC (w ++ l) = ltrimC l := by
  simp only [ltrimC]
  exact List.dropWhile_append_of_pos h

theorem ltrimC_eq_nil (w : List Char) (h : ∀ c ∈ w, c.isWhitespace = true) :
    ltrimC w = [] :=
  List.dropWhile_eq_nil_iff.mpr h

theorem ltrimC_head_not (l : List Char) (c : Char) (t : List Char)
    (h : ltrimC l = c :: t) : c.isWhitespace = false :=
  dropWhile_head_not _ l c t h

theorem ltrimC_eq_self (l : List Char) (h : ∀ c t, l = c :: t → c.isWhitespace = false) :
    ltrimC l = l := by
  cases l with
  | nil => rfl
  | cons c t =>
    rw [ltrimC, List.dropWhile_cons_of_neg]
    simp [h c t rfl]

theorem ltrimC_append_left (l₁ l₂ : List Char) (h : ltrimC l₁ ≠ []) :
    ltrimC (l₁ ++ l₂) = ltrimC l₁ ++ l₂ := by
  simp only [ltrimC] at *
  rw [List.dropWhile_append]
  have : (l₁.dropWhile Char.isWhitespace).isEmpty = false := by
    cases hx : l₁.dropWhile Char.isWhitespace with
    | nil => exact absurd hx h
    | cons a b => rfl
  rw [this]
  simp

theorem rtrimC_append_ws (l w : List Char) (h : ∀ c ∈ w, c.isWhitespace = true) :
    rtrimC (l ++ w) = rtrimC l := by
  simp only [rtrimC, List.reverse_append]
  rw [List.dropWhile_append_of_pos]
  intro c hc
  exact h c (List.mem_reverse.mp hc)

theorem rtrimC_decomp (l : List Char) :
    ∃ w, l = rtrimC l ++ w ∧ ∀ c ∈ w, c.isWhitespace = true := by
  refine ⟨(l.reverse.takeWhile Char.isWhitespace).reverse, ?_, ?_⟩
  · conv_lhs => rw [← l.reverse_reverse,
      ← List.takeWhile_append_dropWhile Char.isWhitespace l.reverse]
    rw [List.reverse_append]
    rfl
  · intro c hc
    exact List.mem_takeWhile_imp (List.mem_reverse.mp hc)

theorem rtrimC_last_not (l : List Char) (c : Char) (t : List Char)
    (h : (rtrimC l).reverse = c :: t) : c.isWhitespace = false := by
  rw [rtrimC, List.reverse_reverse] at h
  exact dropWhile_head_not _ l.reverse c t h

theorem rtrimC_eq_self (l : List Char) (h : ∀ c t, l.reverse = c :: t → c.isWhitespace = false) :
    rtrimC l = l := by
  cases hr : l.reverse with
  | nil =>
    have hl : l = [] := by simpa using congrArg List.reverse hr
    subst hl; rfl
  | cons c t =>
    have hc := h c t hr
    rw [rtrimC, hr, List.dropWhile_cons_of_neg (by simp [hc]), ← hr, List.reverse_reverse]

theorem rtrimC_cons_not (c : Char) (l : List Char) (h : c.isWhitespace = false) :
    rtrimC (c :: l) = c :: rtrimC l := by
  rw [rtrimC, List.reverse_cons, List.dropWhile_append]
  split
  case isTrue he =>
    have h0 : l.reverse.dropWhile Char.isWhitespace = [] := by
      simpa [List.isEmpty_iff] using he
    rw [List.dropWhile_cons_of_neg (by simp [h])]
    simp [rtrimC, h0]
  case isFalse he =>
    rw [List.reverse_append, List.reverse_cons]
    simp [rtrimC]

theorem rtrimC_append_left (l₁ l₂ : List Char) (h : rtrimC l₂ ≠ []) :
    rtrimC (l₁ ++ l₂) = l₁ ++ rtrimC l₂ := by
  have hne : (l₂.reverse.dropWhile Char.isWhitespace).isEmpty = false := by
    cases hx : l₂.reverse.dropWhile Char.isWhitespace with
    | nil => exact absurd (by simp [rtrimC, hx]) h
    | cons a b => rfl
  rw [rtrimC, List.reverse_append, List.dropWhile_append, hne]
  simp [rtrimC]

theorem trim_head_not (l : List Char) (c : Char) (t : List Char)
    (h : rtrimC (ltrimC l) = c :: t) : c.isWhitespace = false := by
  obtain ⟨w, hw, _⟩ := rtrimC_decomp (ltrimC l)
  rw [h] at hw
  exact ltrimC_head_not l c (t ++ w) (by simpa using hw)

theorem trim_idem (l : List Char) :
    rtrimC (ltrimC (rtrimC (ltrimC l))) = rtrimC (ltrimC l) := by
  have h1 : ltrimC (rtrimC (ltrimC l)) = rtrimC (ltrimC l) :=
    ltrimC_eq_self _ (fun c t hct => trim_head_not l c t hct)
  rw [h1]
  exact rtrimC_eq_self _ (fun c t hct => rtrimC_last_not (ltrimC l) c t hct)

theorem jsTrim_idem (s : String) : jsTrim (jsTrim s) = jsTrim s :=
  String.ext (trim_idem s.data)

theorem jsTrim_empty : jsTrim "" = "" := rfl

theorem jsTrim_eq_empty_iff (s : String) : jsTrim s = "" ↔ rtrimC (ltrimC s.data) = [] :=
  str_eq_empty_iff _

theorem jsTrimStart_eq_empty_iff (s : String) : jsTrimStart s = "" ↔ ltrimC s.data = [] :=
  str_eq_empty_iff _

theorem jsTrim_space_prepend (s : String) : jsTrim (" " ++ s) = jsTrim s := by
  apply String.ext
  have hd : ((" " : String) ++ s).data = ' ' :: s.data := rfl
  show rtrimC (ltrimC ((" " ++ s)).data) = rtrimC (ltrimC s.data)
  rw [hd, ltrimC, List.dropWhile_cons_of_pos (by decide)]
  rfl

/-! ### Accumulator and join lemmas -/

theorem accStep_empty (t : String) : accStep "" t = t := by simp [accStep]

theorem accStep_ne (acc t : String) (h : acc ≠ "") : accStep acc t = acc ++ " " ++ t := by
  simp [accStep, h]

theorem accStep_ne_empty (acc t : String) (h : acc ≠ "") : accStep acc t ≠ "" := by
  rw [accStep_ne acc t h]
  intro hc
  rw [append_eq_empty_iff, append_eq_empty_iff] at hc
  exact h hc.1.1

theorem accFold_empty_iff : ∀ (ts : List String) (acc : String),
    List.foldl accStep acc ts = "" ↔ acc = "" ∧ ∀ t ∈ ts, t = "" := by
  intro ts
  induction ts with
  | nil => intro acc; simp
  | cons t ts ih =>
    intro acc
    rw [List.foldl_cons, ih]
    constructor
    · rintro ⟨h1, h2⟩
      by_cases ha : acc = ""
      · subst ha
        rw [accStep_empty] at h1
        refine ⟨rfl, fun u hu => ?_⟩
        rcases List.mem_cons.mp hu with hu | hu
        · rw [hu, h1]
        · exact h2 u hu
      · exact absurd h1 (accStep_ne_empty acc t ha)
    · rintro ⟨ha, hts⟩
      subst ha
      rw [accStep_empty]
      exact ⟨hts t (List.mem_cons_self t ts), fun u hu => hts u (List.mem_cons_of_mem t hu)⟩

theorem joinSpace_cons_cons (x y : String) (l : List String) :
    joinSpace (x :: y :: l) = x ++ " " ++ joinSpace (y :: l) := rfl

theorem joinSpace_merge (a b : String) (l : List String) :
    joinSpace ((a ++ " " ++ b) :: l) = a ++ " " ++ joinSpace (b :: l) := by
  cases l with
  | nil => rfl
  | cons c l =>
    rw [joinSpace_cons_cons, joinSpace_cons_cons]
    simp [String.append_assoc]

theorem accFold_ne : ∀ (ts : List String) (t : String), t ≠ "" →
    List.foldl accStep t ts = joinSpace (t :: ts) := by
  intro ts
  induction ts with
  | nil => intro t _; rfl
  | cons u ts ih =>
    intro t h
    rw [List.foldl_cons, accStep_ne t u h, ih _ (accStep_ne_empty t u h ∘ (accStep_ne t u h ▸ ·)),
      joinSpace_merge, joinSpace_cons_cons]

theorem accFold_trim_joinSpace : ∀ (ts : List String),
    jsTrim (List.foldl accStep "" ts) = jsTrim (joinSpace ts) := by
  intro ts
  induction ts with
  | nil => rfl
  | cons t ts ih =>
    rw [List.foldl_cons, accStep_empty]
    by_cases h : t = ""
    · subst h
      have hfold : List.foldl accStep "" ts = List.foldl accStep (accStep "" "") ts := by
        rw [accStep_empty]
      rw [← accStep_empty ("" : String), ← List.foldl_cons]
      rw [List.foldl_cons, accStep_empty, ih]
      cases ts with
      | nil => rfl
      | cons u l =>
        rw [joinSpace_cons_cons, empty_append, jsTrim_space_prepend]
    · rw [accFold_ne ts t h]

/-! ### Non-emptiness facts -/

theorem formatTime_ne_empty (t : Nat) : formatTime t ≠ "" := by
  unfold formatTime
  intro h
  rw [append_eq_empty_iff, append_eq_empty_iff] at h
  exact absurd h.1.2 (by decide)

theorem joinLines_cons_cons (x y : String) (l : List String) :
    joinLines (x :: y :: l) = x ++ "\n" ++ joinLines (y :: l) := rfl

theorem joinLines_ne (x : String) (l : List String) (h : x ≠ "") : joinLines (x :: l) ≠ "" := by
  cases l with
  | nil => exact h
  | cons y l =>
    rw [joinLines_cons_cons]
    intro hc
    rw [append_eq_empty_iff, append_eq_empty_iff] at hc
    exact h hc.1.1

theorem runSegment_ne (speakerMeta : List (String × String)) (c : Caption) (cs : List Caption) :
    runSegment speakerMeta (c :: cs) ≠ "" := by
  intro h
  simp only [runSegment, append_eq_empty_iff] at h
  exact formatTime_ne_empty c.time h.1.1.1.1

/-! ### Run decomposition lemmas -/

theorem splitRuns_flatten : ∀ (cs : List Caption), (splitRuns cs).flatten = cs := by
  intro cs
  induction cs with
  | nil => rfl
  | cons c rest ih =>
    cases rest with
    | nil => rfl
    | cons c2 cs2 =>
      cases hs : splitRuns (c2 :: cs2) with
      | nil => rw [hs] at ih; simp at ih
      | cons r rs =>
        rw [hs] at ih
        simp only [splitRuns, hs]
        split
        · simp only [List.flatten_cons] at ih ⊢
          simp [ih]
        · simp only [List.flatten_cons] at ih ⊢
          simp [ih]

theorem splitRuns_head_shape : ∀ (cs : List Caption) (c : Caption),
    ∃ cr rs, splitRuns (c :: cs) = (c :: cr) :: rs := by
  intro cs
  induction cs with
  | nil => intro c; exact ⟨[], [], rfl⟩
  | cons c2 cs2 ih =>
    intro c
    obtain ⟨cr, rs, hs⟩ := ih c2
    simp only [splitRuns, hs]
    by_cases hsp : c.speaker_id = c2.speaker_id
    · rw [if_pos hsp]
      exact ⟨c2 :: cr, rs, rfl⟩
    · rw [if_neg hsp]
      exact ⟨[], (c2 :: cr) :: rs, rfl⟩

theorem splitRuns_wf : ∀ (cs : List Caption) (last : Option Nat),
    (∀ c, cs.head? = some c → last ≠ some c.speaker_id) →
    RunsWF last (splitRuns cs) := by
  intro cs
  induction cs with
  | nil => intro last _; trivial
  | cons c rest ih =>
    intro last h
    have hlast : last ≠ some c.speaker_id := h c rfl
    cases rest with
    | nil =>
      show (∀ x ∈ ([] : List Caption), x.speaker_id = c.speaker_id) ∧
        some c.speaker_id ≠ last ∧ RunsWF (some c.speaker_id) []
      exact ⟨by simp, Ne.symm hlast, trivial⟩
    | cons c2 cs2 =>
      obtain ⟨cr, rs, hs⟩ := splitRuns_head_shape cs2 c2
      by_cases hsp : c.speaker_id = c2.speaker_id
      · have hwf := ih none (by intro x _; exact fun hx => Option.noConfusion hx)
        rw [hs] at hwf
        obtain ⟨hall, -, hrs⟩ := hwf
        simp only [splitRuns, hs, if_pos hsp]
        refine ⟨?_, Ne.symm hlast, ?_⟩
        · intro x hx
          rcases List.mem_cons.mp hx with hx | hx
          · rw [hx, hsp]
          · rw [hall x hx, hsp]
        · rw [hsp]
          exact hrs
      · have hwf := ih (some c.speaker_id) ?_
        · rw [hs] at hwf
          simp only [splitRuns, hs, if_neg hsp]
          exact ⟨by simp, Ne.symm hlast, hwf⟩
        · intro x hx
          have hx2 : x = c2 := by
            simpa using hx.symm
          rw [hx2]
          intro hc
          exact hsp (Option.some.inj hc)

/-! ### Body-loop lemmas -/

theorem joinNE_empty_right (a : String) : joinNE a "" = a := by
  by_cases h : a = "" <;> simp [joinNE, h]

theorem joinNE_empty_left (b : String) : joinNE "" b = b := by
  simp [joinNE]

theorem assemble_one (pre seg : String) (hseg : seg ≠ "") :
    (if pre ≠ "" then pre ++ "\n" else pre) ++ seg = joinNE pre seg := by
  by_cases hp : pre = ""
  · simp [hp, joinNE, empty_append]
  · simp [hp, joinNE, hseg, String.append_assoc]

theorem assemble_many (pre seg rest : String) (hseg : seg ≠ "") (hrest : rest ≠ "") :
    joinNE ((if pre ≠ "" then pre ++ "\n" else pre) ++ seg) rest =
      joinNE pre (seg ++ "\n" ++ rest) := by
  have hsr : seg ++ "\n" ++ rest ≠ "" := by
    intro hc
    rw [append_eq_empty_iff, append_eq_empty_iff] at hc
    exact hseg hc.1.1
  by_cases hp : pre = ""
  · subst hp
    rw [if_neg (by simp), empty_append, joinNE_empty_left]
    simp only [joinNE]
    rw [if_neg hseg, if_neg hrest]
  · rw [if_pos hp]
    have hps : pre ++ "\n" ++ seg ≠ "" := by
      intro hc
      rw [append_eq_empty_iff] at hc
      exact hseg hc.2
    simp only [joinNE]
    rw [if_neg hps, if_neg hrest, if_neg hp, if_neg hsr]
    simp [String.append_assoc]

theorem foldl_same_run (speakerMeta : List (String × String)) :
    ∀ (cr : List Caption) (sid : Nat) (body acc : String),
    (∀ x ∈ cr, x.speaker_id = sid) →
    List.foldl (bodyStep speakerMeta) ⟨body, some sid, acc⟩ cr =
      ⟨body, some sid, List.foldl accStep acc (cr.map Caption.sentence)⟩ := by
  intro cr
  induction cr with
  | nil => intro sid body acc _; rfl
  | cons x cr ih =>
    intro sid body acc hall
    have hx : x.speaker_id = sid := hall x (List.mem_cons_self x cr)
    rw [List.foldl_cons]
    have hstep : bodyStep speakerMeta ⟨body, some sid, acc⟩ x =
        ⟨body, some sid, accStep acc x.sentence⟩ := by
      simp [bodyStep, hx]
    rw [hstep, ih sid body _ (fun y hy => hall y (List.mem_cons_of_mem x hy)),
      List.map_cons, List.foldl_cons]

theorem bodyLoop_runs (speakerMeta : List (String × String)) :
    ∀ (rs : List (List Caption)) (body : String) (last : Option Nat) (acc : String),
    RunsWF last rs →
    finishBody (List.foldl (bodyStep speakerMeta) ⟨body, last, acc⟩ rs.flatten) =
      joinNE (flushAcc body acc) (joinLines (rs.map (runSegment speakerMeta))) := by
  intro rs
  induction rs with
  | nil =>
    intro body last acc _
    show finishBody ⟨body, last, acc⟩ = joinNE (flushAcc body acc) (joinLines [])
    rw [show joinLines [] = "" from rfl, joinNE_empty_right]
    rfl
  | cons r rs ih =>
    intro body last acc hwf
    cases r with
    | nil => exact hwf.elim
    | cons c cr =>
      obtain ⟨hall, hne, hrs⟩ := hwf
      rw [List.flatten_cons, List.cons_append, List.foldl_cons]
      have hstep : bodyStep speakerMeta ⟨body, last, acc⟩ c =
          ⟨(if flushAcc body acc ≠ "" then flushAcc body acc ++ "\n" else flushAcc body acc)
              ++ runHeader speakerMeta c,
            some c.speaker_id, c.sentence⟩ := by
        simp only [bodyStep]
        rw [if_neg]
        simpa using Ne.symm hne
      rw [hstep, List.foldl_append,
        foldl_same_run speakerMeta cr c.speaker_id _ _ hall, ih _ _ _ hrs]
      have hAR : List.foldl accStep c.sentence (cr.map Caption.sentence) =
          List.foldl accStep "" ((c :: cr).map Caption.sentence) := by
        rw [List.map_cons, List.foldl_cons, accStep_empty]
      have hblk : flushAcc
          ((if flushAcc body acc ≠ "" then flushAcc body acc ++ "\n" else flushAcc body acc)
            ++ runHeader speakerMeta c)
          (List.foldl accStep c.sentence (cr.map Caption.sentence)) =
          (if flushAcc body acc ≠ "" then flushAcc body acc ++ "\n" else flushAcc body acc)
            ++ runSegment speakerMeta (c :: cr) := by
        rw [hAR]
        by_cases hz : List.foldl accStep "" ((c :: cr).map Caption.sentence) = ""
        · have hany : ((c :: cr).map Caption.sentence).any (fun t => t != "") = false := by
            rw [accFold_empty_iff] at hz
            rcases hz with ⟨-, hz⟩
            rw [← Bool.not_eq_true]
            intro hc
            obtain ⟨x, hx, hxne⟩ := List.any_eq_true.mp hc
            exact (bne_iff_ne.mp hxne) (hz x hx)
          rw [flushAcc, if_neg (by simpa using hz)]
          simp only [runSegment, List.map_cons] at hany ⊢
          rw [hany]
          simp [runHeader, String.append_assoc, append_empty]
        · have hany : ((c :: cr).map Caption.sentence).any (fun t => t != "") = true := by
            rw [accFold_empty_iff] at hz
            push_neg at hz
            obtain ⟨x, hx, hxne⟩ := hz rfl
            exact List.any_eq_true.mpr ⟨x, hx, bne_iff_ne.mpr hxne⟩
          rw [flushAcc, if_pos (by simpa using hz), accFold_trim_joinSpace]
          simp only [runSegment, List.map_cons] at hany ⊢
          rw [hany]
          simp [runHeader, String.append_assoc]
      rw [hblk]
      cases rs with
      | nil =>
        rw [show (([] : List (List Caption)).map (runSegment speakerMeta)) = [] from rfl,
          show joinLines [] = "" from rfl, joinNE_empty_right, List.map_cons,
          show (([] : List (List Caption)).map (runSegment speakerMeta)) = [] from rfl]
        rw [show joinLines [runSegment speakerMeta (c :: cr)] = runSegment speakerMeta (c :: cr)
          from rfl]
        exact assemble_one _ _ (runSegment_ne speakerMeta c cr)
      | cons r2 rs2 =>
        cases r2 with
        | nil => exact hrs.elim
        | cons c2 cr2 =>
          rw [List.map_cons, List.map_cons, List.map_cons, joinLines_cons_cons]
          exact assemble_many _ _ _ (runSegment_ne speakerMeta c cr)
            (joinLines_ne _ _ (runSegment_ne speakerMeta c2 cr2))

/-! ### Decimal representation lemmas -/

theorem toDigitsCore_length_pos (f n : Nat) (h : 1 ≤ f) :
    1 ≤ (Nat.toDigitsCore 10 f n []).length := by
  cases f with
  | zero => omega
  | succ f =>
    simp only [Nat.toDigitsCore]
    split
    · simp
    · rw [Nat.toDigitsCore_lens_eq]
      omega

theorem repr_length_ge_two (m : Nat) (h : 10 ≤ m) : 2 ≤ (Nat.repr m).length := by
  have hlen : (Nat.repr m).length = (Nat.toDigitsCore 10 (m + 1) m []).length := rfl
  rw [hlen]
  simp only [Nat.toDigitsCore]
  have hdiv : ¬ (m / 10 = 0) := by
    have := Nat.div_pos h (by decide)
    omega
  rw [if_neg hdiv, Nat.toDigitsCore_lens_eq]
  have := toDigitsCore_length_pos m (m / 10) (by omega)
  omega

theorem padStart2_repr (m : Nat) : padStart2 (Nat.repr m) = zeroPad2 m := by
  by_cases h : m < 10
  · interval_cases m <;> rfl
  · have h2 : 2 ≤ (Nat.repr m).length := repr_length_ge_two m (by omega)
    rw [padStart2, if_neg (by omega), zeroPad2, if_neg h]

theorem digitChar_not_ws (m : Nat) (h : m < 10) :
    (Nat.digitChar m).isWhitespace = false ∧ Nat.digitChar m ≠ 'E' := by
  interval_cases m <;> exact ⟨by decide, by decide⟩

theorem toDigitsCore_chars (f : Nat) : ∀ (n : Nat) (ds : List Char),
    (∀ c ∈ ds, c.isWhitespace = false ∧ c ≠ 'E') →
    ∀ c ∈ Nat.toDigitsCore 10 f n ds, c.isWhitespace = false ∧ c ≠ 'E' := by
  induction f with
  | zero =>
    intro n ds h
    simpa [Nat.toDigitsCore] using h
  | succ f ih =>
    intro n ds h
    simp only [Nat.toDigitsCore]
    have hd := digitChar_not_ws (n % 10) (Nat.mod_lt n (by decide))
    split
    · intro c hc
      rcases List.mem_cons.mp hc with hc | hc
      · exact hc ▸ hd
      · exact h c hc
    · refine ih (n / 10) _ (fun c hc => ?_)
      rcases List.mem_cons.mp hc with hc | hc
      · exact hc ▸ hd
      · exact h c hc

theorem repr_chars (n : Nat) : ∀ c ∈ (Nat.repr n).data, c.isWhitespace = false ∧ c ≠ 'E' := by
  have hd : (Nat.repr n).data = Nat.toDigitsCore 10 (n + 1) n [] := rfl
  rw [hd]
  exact toDigitsCore_chars (n + 1) n [] (by simp)

theorem padStart2_data_head (m : Nat) :
    ∃ c cs, (padStart2 (Nat.repr m)).data = c :: cs ∧ c.isWhitespace = false ∧ c ≠ 'E' := by
  rw [padStart2]
  by_cases hlen : (Nat.repr m).length < 2
  · rw [if_pos hlen]
    obtain ⟨j, hj⟩ : ∃ j, 2 - (Nat.repr m).length = j + 1 := by
      refine ⟨1 - (Nat.repr m).length, ?_⟩
      have : (Nat.repr m).length ≤ 1 := by omega
      omega
    refine ⟨'0', List.replicate j '0' ++ (Nat.repr m).data, ?_, by decide, by decide⟩
    show List.replicate (2 - (Nat.repr m).length) '0' ++ (Nat.repr m).data = _
    rw [hj, List.replicate_succ, List.cons_append]
  · rw [if_neg hlen]
    cases hr : (Nat.repr m).data with
    | nil =>
      exfalso
      have hl : (Nat.repr m).length = (Nat.repr m).data.length := rfl
      rw [hr] at hl
      simp at hl
      omega
    | cons c cs =>
      have hmem := repr_chars m c (by rw [hr]; exact List.mem_cons_self c cs)
      exact ⟨c, cs, rfl, hmem.1, hmem.2⟩

theorem formatTime_head (t : Nat) :
    ∃ c cs, (formatTime t).data = c :: cs ∧ c.isWhitespace = false ∧ c ≠ 'E' := by
  obtain ⟨c, cs, hd, h1, h2⟩ := padStart2_data_head (t / 60)
  refine ⟨c, cs ++ ((":" ++ padStart2 (Nat.repr (t % 60))).data), ?_, h1, h2⟩
  rw [formatTime, String.append_assoc, String.data_append, hd, List.cons_append]

/-! ### Body-extension lemmas -/

theorem flushAcc_extends (body acc : String) : ∃ v, flushAcc body acc = body ++ v := by
  rw [flushAcc]
  split
  · exact ⟨jsTrim acc ++ "\n", String.append_assoc body (jsTrim acc) "\n"⟩
  · exact ⟨"", (append_empty body).symm⟩

theorem foldl_body_extends (speakerMeta : List (String × String)) :
    ∀ (cs : List Caption) (st : LoopState),
    ∃ t, finishBody (List.foldl (bodyStep speakerMeta) st cs) = st.body ++ t := by
  intro cs
  induction cs with
  | nil =>
    intro st
    rw [List.foldl_nil]
    exact flushAcc_extends st.body st.acc
  | cons c cs ih =>
    intro st
    rw [List.foldl_cons]
    by_cases h : st.lastSpeakerId = some c.speaker_id
    · have hstep : bodyStep speakerMeta st c = { st with acc := accStep st.acc c.sentence } := by
        simp [bodyStep, h]
      rw [hstep]
      exact ih _
    · have hstep : bodyStep speakerMeta st c =
          ⟨(if flushAcc st.body st.acc ≠ "" then flushAcc st.body st.acc ++ "\n"
              else flushAcc st.body st.acc) ++ runHeader speakerMeta c,
            some c.speaker_id, c.sentence⟩ := by
        simp only [bodyStep]
        rw [if_neg h]
      rw [hstep]
      obtain ⟨v, hv⟩ := flushAcc_extends st.body st.acc
      obtain ⟨w, hw⟩ : ∃ w,
          (if flushAcc st.body st.acc ≠ "" then flushAcc st.body st.acc ++ "\n"
            else flushAcc st.body st.acc) = st.body ++ w := by
        split
        · exact ⟨v ++ "\n", by rw [hv, String.append_assoc]⟩
        · exact ⟨v, hv⟩
      obtain ⟨t, ht⟩ := ih ⟨(if flushAcc st.body st.acc ≠ "" then flushAcc st.body st.acc ++ "\n"
          else flushAcc st.body st.acc) ++ runHeader speakerMeta c,
        some c.speaker_id, c.sentence⟩
      refine ⟨w ++ runHeader speakerMeta c ++ t, ?_⟩
      rw [ht]
      show (if flushAcc st.body st.acc ≠ "" then flushAcc st.body st.acc ++ "\n"
          else flushAcc st.body st.acc) ++ runHeader speakerMeta c ++ t = _
      rw [hw, String.append_assoc, String.append_assoc, String.append_assoc]

theorem formatBody_nil (speakerMeta : List (String × String)) :
    formatBody speakerMeta [] = "" := rfl

theorem formatBody_cons (speakerMeta : List (String × String)) (c : Caption) (cs : List Caption) :
    ∃ rest, formatBody speakerMeta (c :: cs) =
      formatTime c.time ++ "\n" ++ resolveSpeakerName speakerMeta c.speaker_id ++ "\n" ++ rest := by
  rw [formatBody, List.foldl_cons]
  have hstep : bodyStep speakerMeta ⟨"", initialLastSpeakerId, ""⟩ c =
      ⟨runHeader speakerMeta c, some c.speaker_id, c.sentence⟩ := rfl
  rw [hstep]
  obtain ⟨t, ht⟩ := foldl_body_extends speakerMeta cs
    ⟨runHeader speakerMeta c, some c.speaker_id, c.sentence⟩
  refine ⟨t, ?_⟩
  rw [ht, runHeader]

theorem jsTrim_head (s : String) (c : Char) (hc : c.isWhitespace = false)
    (hd : ∃ cs, s.data = c :: cs) : ∃ t, (jsTrim s).data = c :: t := by
  obtain ⟨cs, hcs⟩ := hd
  refine ⟨rtrimC cs, ?_⟩
  show rtrimC (ltrimC s.data) = c :: rtrimC cs
  rw [hcs, ltrimC, List.dropWhile_cons_of_neg (by simp [hc]), rtrimC_cons_not c cs hc]

theorem trimmed_body_ne_error (speakerMeta : List (String × String)) (captions : List Caption) :
    jsTrim (formatBody speakerMeta captions) ≠ missingDataError := by
  cases captions with
  | nil =>
    rw [formatBody_nil]
    decide
  | cons c cs =>
    obtain ⟨rest, hb⟩ := formatBody_cons speakerMeta c cs
    rw [hb]
    obtain ⟨d, ds, hd, hws, hne⟩ := formatTime_head c.time
    have hY : (formatTime c.time ++ "\n" ++ resolveSpeakerName speakerMeta c.speaker_id
        ++ "\n" ++ rest).data = (formatTime c.time).data ++
        (("\n" : String).data ++ ((resolveSpeakerName speakerMeta c.speaker_id).data ++
          (("\n" : String).data ++ rest.data))) := by
      simp [String.data_append, List.append_assoc]
    obtain ⟨t, ht⟩ := jsTrim_head _ d hws
      ⟨ds ++ (("\n" : String).data ++ ((resolveSpeakerName speakerMeta c.speaker_id).data ++
        (("\n" : String).data ++ rest.data))), by rw [hY, hd]; rfl⟩
    intro hcontra
    have hdata := congrArg String.data hcontra
    rw [ht] at hdata
    have hE : missingDataError.data =
        'E' :: "rror: Could not format transcript due to missing data.".data := rfl
    rw [hE] at hdata
    exact hne (List.cons.injEq .. |>.mp hdata).1

/-! ### Final-assembly trim lemmas -/

theorem rtrimC_trimmed (l : List Char) : rtrimC (rtrimC (ltrimC l)) = rtrimC (ltrimC l) :=
  rtrimC_eq_self _ (fun c t hct => rtrimC_last_not (ltrimC l) c t hct)

theorem trim_append_ws_list (l w : List Char) (h : ∀ c ∈ w, c.isWhitespace = true) :
    rtrimC (ltrimC (l ++ w)) = rtrimC (ltrimC l) := by
  rw [ltrimC, List.dropWhile_append]
  split
  case isTrue he =>
    have h0 : l.dropWhile Char.isWhitespace = [] := by
      simpa [List.isEmpty_iff] using he
    have hw : List.dropWhile Char.isWhitespace w = [] := List.dropWhile_eq_nil_iff.mpr h
    rw [hw, ltrimC, h0]
  case isFalse he =>
    rw [rtrimC_append_ws _ w h]
    rfl

theorem jsTrim_append_ws (s w : String) (h : ∀ c ∈ w.data, c.isWhitespace = true) :
    jsTrim (s ++ w) = jsTrim s := by
  apply String.ext
  show rtrimC (ltrimC (s ++ w).data) = rtrimC (ltrimC s.data)
  rw [String.data_append]
  exact trim_append_ws_list s.data w.data h

theorem trim_ws_head_append (s t : String) (h : ltrimC s.data = []) :
    jsTrim (s ++ t) = jsTrim t := by
  apply String.ext
  show rtrimC (ltrimC (s ++ t).data) = rtrimC (ltrimC t.data)
  rw [String.data_append, ltrimC, List.dropWhile_append]
  have h0 : s.data.dropWhile Char.isWhitespace = [] := h
  rw [h0]
  simp [ltrimC]

theorem trim_assemble (h b : String) (hh : ltrimC h.data ≠ [])
    (hb : rtrimC (ltrimC b.data) ≠ []) :
    jsTrim (h ++ "\n\n" ++ jsTrim b) = jsTrimStart h ++ "\n\n" ++ jsTrim b := by
  apply String.ext
  show rtrimC (ltrimC ((h ++ "\n\n") ++ jsTrim b).data) = _
  have hbt : (jsTrim b).data = rtrimC (ltrimC b.data) := rfl
  have hrbt : rtrimC ((jsTrim b).data) = (jsTrim b).data := rtrimC_trimmed b.data
  have hbtne : (jsTrim b).data ≠ [] := by rw [hbt]; exact hb
  rw [String.data_append, String.data_append, List.append_assoc,
    ltrimC_append_left h.data _ hh]
  have hnlbt : rtrimC (("\n\n" : String).data ++ (jsTrim b).data) =
      ("\n\n" : String).data ++ (jsTrim b).data := by
    rw [rtrimC_append_left _ _ (by rw [hrbt]; exact hbtne), hrbt]
  rw [rtrimC_append_left _ _ (by rw [hnlbt]; intro hc; exact hbtne (List.append_eq_nil.mp hc).2),
    hnlbt]
  show _ = ((jsTrimStart h ++ "\n\n") ++ jsTrim b).data
  rw [String.data_append, String.data_append, List.append_assoc]
  rfl

theorem formatTranscript_present (note : MeetingNote) (url : String) (captions : List Caption)
    (speakerMeta : List (String × String)) (hc : note.captions = some captions)
    (hm : note.speakerMeta = some speakerMeta) :
    formatTranscript (some note) url =
      (if headerOf note url ≠ "" then
        jsTrim (headerOf note url ++ "\n\n" ++ jsTrim (formatBody speakerMeta captions))
      else jsTrim (formatBody speakerMeta captions)) := by
  obtain ⟨oc, om, ti, da, att⟩ := note
  simp only [MeetingNote.captions] at hc
  simp only [MeetingNote.speakerMeta] at hm
  subst hc
  subst hm
  rfl

theorem formatTranscript_missing (note : MeetingNote) (url : String)
    (h : note.captions = none ∨ note.speakerMeta = none) :
    formatTranscript (some note) url = missingDataError := by
  obtain ⟨oc, om, ti, da, att⟩ := note
  rcases h with h | h
  · simp only [MeetingNote.captions] at h
    subst h
    rfl
  · simp only [MeetingNote.speakerMeta] at h
    subst h
    cases oc <;> rfl

/-! ### The claims -/

/-- C1: for every caption sequence, the produced body is exactly one segment
per maximal run of consecutive same-speaker-id captions, in original order;
each segment is one `MM:SS` timestamp line, one speaker-name line, and — when
the run has any non-empty text — one block holding the run's `text` values
space-joined (single-space separator), never split across further headers;
segments are separated by blank lines. -/
theorem claim_C1 (speakerMeta : List (String × String)) (captions : List Caption) :
    formatBody speakerMeta captions = bodySpec speakerMeta captions := by
  rw [formatBody, bodySpec]
  conv_lhs => rw [show captions = (splitRuns captions).flatten from
    (splitRuns_flatten captions).symm]
  rw [bodyLoop_runs speakerMeta (splitRuns captions) "" initialLastSpeakerId ""
    (splitRuns_wf captions initialLastSpeakerId (fun c _ => by simp [initialLastSpeakerId]))]
  rw [show flushAcc "" "" = "" from rfl, joinNE_empty_left]

/-- C2 counterexample: the directory maps the one-based key "1" to the empty
string, so the entry exists, yet the resolver returns the fallback label
rather than the empty entry: the `||` lookup treats an empty name as falsy. -/
theorem claim_C2_counterexample :
    List.lookup "1" [("1", "")] = some "" ∧
    resolveSpeakerName [("1", "")] 0 = "Unknown Speaker 1" ∧
    resolveSpeakerName [("1", "")] 0 ≠ "" := by
  refine ⟨by decide, by decide, by decide⟩

/-- C2 amended: a non-empty directory entry under the one-based string key is
returned unmodified; a missing entry, or an entry equal to the empty string,
yields the fallback string "Unknown Speaker " followed by the one-based id.
The resolver is a total function and always returns a string. -/
theorem claim_C2 (speakerMeta : List (String × String)) (speakerId : Nat) :
    (∀ v, speakerMeta.lookup (Nat.repr (speakerId + 1)) = some v → v ≠ "" →
      resolveSpeakerName speakerMeta speakerId = v) ∧
    (speakerMeta.lookup (Nat.repr (speakerId + 1)) = none ∨
        speakerMeta.lookup (Nat.repr (speakerId + 1)) = some "" →
      resolveSpeakerName speakerMeta speakerId =
        "Unknown Speaker " ++ Nat.repr (speakerId + 1)) := by
  constructor
  · intro v hv hne
    simp only [resolveSpeakerName, hv]
    rw [if_neg hne]
  · intro h
    rcases h with h | h <;> simp [resolveSpeakerName, h]

/-- C2 witness: with directory mapping "1" to "Alice", id 0 resolves to
"Alice" and id 1 (no entry) to "Unknown Speaker 2". -/
theorem claim_C2_witness :
    resolveSpeakerName [("1", "Alice")] 0 = "Alice" ∧
    resolveSpeakerName [("1", "Alice")] 1 = "Unknown Speaker 2" :=
  ⟨(claim_C2 [("1", "Alice")] 0).1 "Alice" (by decide) (by decide),
   (claim_C2 [("1", "Alice")] 1).2 (Or.inl (by decide))⟩

/-- C3 counterexample: a record whose captions and speaker directory are both
present but whose title is the diagnostic text itself makes the formatter
return exactly the diagnostic string, refuting "this diagnostic string is not
returned" for every record with both fields present. -/
theorem claim_C3_counterexample :
    (MeetingNote.mk (some []) (some [])
      "Error: Could not format transcript due to missing data." "" []).captions ≠ none ∧
    (MeetingNote.mk (some []) (some [])
      "Error: Could not format transcript due to missing data." "" []).speakerMeta ≠ none ∧
    formatTranscript (some (MeetingNote.mk (some []) (some [])
      "Error: Could not format transcript due to missing data." "" [])) "" =
      missingDataError := by
  refine ⟨by simp, by simp, by decide⟩

/-- C3 amended: when captions or the speaker directory are absent, the
formatter returns the fixed diagnostic string (and, being a total function,
never throws); when both are present the error branch is not taken, and with
an empty header the result — the trimmed body — is never the diagnostic. A
non-empty header can reproduce the diagnostic only when the header content
itself equals that text. -/
theorem claim_C3 (note : MeetingNote) (url : String) :
    (note.captions = none ∨ note.speakerMeta = none →
      formatTranscript (some note) url = missingDataError) ∧
    (∀ captions speakerMeta, note.captions = some captions →
      note.speakerMeta = some speakerMeta → headerOf note url = "" →
      formatTranscript (some note) url ≠ missingDataError) := by
  constructor
  · exact formatTranscript_missing note url
  · intro captions speakerMeta hc hm hh
    rw [formatTranscript_present note url captions speakerMeta hc hm,
      if_neg (not_not_intro hh)]
    exact trimmed_body_ne_error speakerMeta captions

/-- C3 witness: a record with captions absent yields the diagnostic; a record
with both fields present and an empty header does not. -/
theorem claim_C3_witness :
    formatTranscript (some ⟨none, some [], "T", "", []⟩) "" = missingDataError ∧
    formatTranscript (some ⟨some [⟨0, "Hi", 0⟩], some [], "", "", []⟩) "" ≠
      missingDataError :=
  ⟨(claim_C3 ⟨none, some [], "T", "", []⟩ "").1 (Or.inl rfl),
   (claim_C3 ⟨some [⟨0, "Hi", 0⟩], some [], "", "", []⟩ "").2 [⟨0, "Hi", 0⟩] [] rfl rfl rfl⟩

/-- C4: the end-to-end example: title "Standup", date "2024-01-01", one
attendee Bo with email, directory mapping "1" to "Bo" and "2" to "Amy", and
three captions (two by speaker 0, one by speaker 1), with no source-location
argument, produces exactly the expected document. -/
theorem claim_C4 :
    formatTranscript (some ⟨some [⟨0, "Hi", 0⟩, ⟨0, "team", 2⟩, ⟨1, "Hey", 5⟩],
      some [("1", "Bo"), ("2", "Amy")], "Standup", "2024-01-01",
      [⟨"", "Bo", "b@x.com"⟩]⟩) "" =
      "Standup | 2024-01-01\n\nBo b@x.com\n\n00:00\nBo\nHi team\n\n00:05\nAmy\nHey" := by
  decide

/-- C5: for every total-seconds value, `formatTime` renders minutes
`totalSeconds / 60` and seconds `totalSeconds % 60`, each zero-padded to at
least two digits, joined by a colon, with no hour component (minutes of 60 or
more are rendered as-is); in particular `formatTime 65 = "01:05"` and
`formatTime 3661 = "61:01"`. -/
theorem claim_C5 (n : Nat) :
    formatTime n = zeroPad2 (n / 60) ++ ":" ++ zeroPad2 (n % 60) ∧
    formatTime 65 = "01:05" ∧ formatTime 3661 = "61:01" := by
  refine ⟨?_, by decide, by decide⟩
  rw [formatTime, padStart2_repr, padStart2_repr]

/-- C6: the initial "no speaker yet" sentinel is distinct from every numeric
speaker id, including 0; consequently, on a caption sequence starting with
speaker 0 the speaker-change branch fires on the first caption and the body
starts with its timestamp line and resolved-name header. -/
theorem claim_C6 (speakerMeta : List (String × String)) (c : Caption) (cs : List Caption)
    (h : c.speaker_id = 0) :
    (∀ id : Nat, initialLastSpeakerId ≠ some id) ∧
    ∃ rest, formatBody speakerMeta (c :: cs) =
      formatTime c.time ++ "\n" ++ resolveSpeakerName speakerMeta 0 ++ "\n" ++ rest := by
  refine ⟨fun id => by simp [initialLastSpeakerId], ?_⟩
  obtain ⟨rest, hb⟩ := formatBody_cons speakerMeta c cs
  rw [h] at hb
  exact ⟨rest, hb⟩

/-- C6 witness: a single caption by speaker 0 at second 7. -/
theorem claim_C6_witness :
    (∀ id : Nat, initialLastSpeakerId ≠ some id) ∧
    ∃ rest, formatBody [("1", "Bo")] [⟨0, "Hi", 7⟩] =
      formatTime 7 ++ "\n" ++ resolveSpeakerName [("1", "Bo")] 0 ++ "\n" ++ rest :=
  claim_C6 [("1", "Bo")] ⟨0, "Hi", 7⟩ [] rfl

/-- C7: the header is assembled in order: title; " | " plus date only when
both title and date are present; the query-stripped source location on a new
line (or as the whole header so far); and the surviving attendee lines
(name and email, else name, else email, else no line) newline-joined and
appended as a block after one blank line (or as the whole header). -/
theorem claim_C7 (note : MeetingNote) (url : String) :
    headerOf note url = headerSpec note url := by
  cases hA : note.attendees with
  | nil =>
    simp [headerOf, headerSpec, titleDatePart, locationStep, attendeesStep, hA, joinLines]
  | cons a l =>
    simp [headerOf, headerSpec, titleDatePart, locationStep, attendeesStep, hA]

/-- C8: with captions and directory present: an empty caption sequence yields
the header alone, trimmed, with no body section and no trailing blank lines or
whitespace; a header that is empty (or whitespace-only, hence trimmed away)
yields the trimmed body alone; and a surviving header is joined to a non-empty
trimmed body by exactly one blank line. -/
theorem claim_C8 (note : MeetingNote) (url : String) (captions : List Caption)
    (speakerMeta : List (String × String)) (hc : note.captions = some captions)
    (hm : note.speakerMeta = some speakerMeta) :
    (captions = [] → formatTranscript (some note) url = jsTrim (headerOf note url)) ∧
    (jsTrimStart (headerOf note url) = "" →
      formatTranscript (some note) url = jsTrim (formatBody speakerMeta captions)) ∧
    (jsTrimStart (headerOf note url) ≠ "" → jsTrim (formatBody speakerMeta captions) ≠ "" →
      formatTranscript (some note) url =
        jsTrimStart (headerOf note url) ++ "\n\n" ++ jsTrim (formatBody speakerMeta captions)) := by
  rw [formatTranscript_present note url captions speakerMeta hc hm]
  refine ⟨?_, ?_, ?_⟩
  · intro hcap
    subst hcap
    rw [formatBody_nil, jsTrim_empty]
    split
    case isTrue hh =>
      rw [append_empty]
      apply jsTrim_append_ws
      intro ch hch
      have : ch = '\n' := by simpa using hch
      subst this
      decide
    case isFalse hh =>
      rw [not_not.mp hh, jsTrim_empty]
  · intro hls
    have hldata : ltrimC (headerOf note url).data = [] := (jsTrimStart_eq_empty_iff _).mp hls
    split
    case isTrue hh =>
      rw [trim_ws_head_append (headerOf note url ++ "\n\n") _ ?_, jsTrim_idem]
      rw [String.data_append]
      apply ltrimC_eq_nil
      intro ch hch
      rcases List.mem_append.mp hch with hch | hch
      · exact (List.dropWhile_eq_nil_iff.mp hldata) ch hch
      · have : ch = '\n' := by simpa using hch
        subst this
        decide
    case isFalse hh =>
      rfl
  · intro hls hbt
    split
    case isTrue hh =>
      exact trim_assemble (headerOf note url) (formatBody speakerMeta captions)
        (fun hl => hls ((jsTrimStart_eq_empty_iff _).mpr hl))
        (fun hr => hbt ((jsTrim_eq_empty_iff _).mpr hr))
    case isFalse hh =>
      rw [not_not.mp hh] at hls
      exact absurd rfl hls

/-- C8 witness: empty captions with title "T" give the header alone. -/
theorem claim_C8_witness :
    formatTranscript (some ⟨some [], some [], "T", "", []⟩) "" =
      jsTrim (headerOf ⟨some [], some [], "T", "", []⟩ "") :=
  (claim_C8 ⟨some [], some [], "T", "", []⟩ "" [] [] rfl rfl).1 rfl

/-- C9: a caption with empty text still participates in accumulation: with a
non-empty accumulator, a space plus the empty text is appended, so the next
non-empty fragment of the run lands two spaces after the earlier text, and
this spacing artifact survives into the emitted block. -/
theorem claim_C9 (speakerMeta : List (String × String)) (sid : Nat) (tA tB : String)
    (t1 t2 t3 : Nat) (hA : tA ≠ "") :
    (∀ acc : String, acc ≠ "" → accStep acc "" = acc ++ " ") ∧
    formatBody speakerMeta [⟨sid, tA, t1⟩, ⟨sid, "", t2⟩, ⟨sid, tB, t3⟩] =
      formatTime t1 ++ "\n" ++ resolveSpeakerName speakerMeta sid ++ "\n" ++
        jsTrim (tA ++ "  " ++ tB) ++ "\n" := by
  constructor
  · intro acc hacc
    rw [accStep_ne acc "" hacc, append_empty]
  · rw [formatBody, List.foldl_cons]
    rw [show bodyStep speakerMeta ⟨"", initialLastSpeakerId, ""⟩ ⟨sid, tA, t1⟩ =
      ⟨runHeader speakerMeta ⟨sid, tA, t1⟩, some sid, tA⟩ from rfl]
    rw [List.foldl_cons]
    have h2 : bodyStep speakerMeta ⟨runHeader speakerMeta ⟨sid, tA, t1⟩, some sid, tA⟩
        ⟨sid, "", t2⟩ =
        ⟨runHeader speakerMeta ⟨sid, tA, t1⟩, some sid, tA ++ " "⟩ := by
      simp [bodyStep, accStep, hA, append_empty]
    rw [h2, List.foldl_cons]
    have hA2 : tA ++ " " ≠ "" := by
      intro hc
      rw [append_eq_empty_iff] at hc
      exact hA hc.1
    have h3 : bodyStep speakerMeta ⟨runHeader speakerMeta ⟨sid, tA, t1⟩, some sid, tA ++ " "⟩
        ⟨sid, tB, t3⟩ =
        ⟨runHeader speakerMeta ⟨sid, tA, t1⟩, some sid, tA ++ " " ++ " " ++ tB⟩ := by
      simp [bodyStep, accStep, hA2]
    rw [h3, List.foldl_nil]
    have hacc3 : tA ++ " " ++ " " ++ tB ≠ "" := by
      intro hc
      rw [append_eq_empty_iff, append_eq_empty_iff, append_eq_empty_iff] at hc
      exact hA hc.1.1.1
    show flushAcc (runHeader speakerMeta ⟨sid, tA, t1⟩) (tA ++ " " ++ " " ++ tB) = _
    rw [flushAcc, if_pos hacc3]
    have hss : tA ++ " " ++ " " ++ tB = tA ++ "  " ++ tB := by
      apply String.ext
      have h1 : ((" " : String)).data = [' '] := rfl
      have h2 : (("  " : String)).data = [' ', ' '] := rfl
      simp [String.data_append, h1, h2, List.append_assoc]
    rw [hss, runHeader]

/-- C9 witness: speaker 0 says "Hi", then an empty caption, then "there"; the
block reads "Hi  there" with two spaces. -/
theorem claim_C9_witness :
    (∀ acc : String, acc ≠ "" → accStep acc "" = acc ++ " ") ∧
    formatBody [] [⟨0, "Hi", 0⟩, ⟨0, "", 1⟩, ⟨0, "there", 2⟩] =
      formatTime 0 ++ "\n" ++ resolveSpeakerName [] 0 ++ "\n" ++
        jsTrim ("Hi" ++ "  " ++ "there") ++ "\n" :=
  claim_C9 [] 0 "Hi" "there" 0 1 2 (by decide)

/-- C10: an attendee line prefers `displayName` over `name` — with a non-empty
`displayName` the `name` field is ignored; with an empty or absent
`displayName` the `name` field is used; and an attendee whose resolved name
and email are both empty contributes no line. -/
theorem claim_C10 (dn nm nm2 em : String) :
    (dn ≠ "" → attendeeLine ⟨dn, nm, em⟩ = attendeeLine ⟨dn, nm2, em⟩) ∧
    (attendeeLine ⟨"", nm, em⟩ = attendeeLine ⟨nm, "", em⟩) ∧
    (dn ≠ "" → em ≠ "" → attendeeLine ⟨dn, nm, em⟩ = some (dn ++ " " ++ em)) ∧
    (dn ≠ "" → em = "" → attendeeLine ⟨dn, nm, em⟩ = some dn) ∧
    ((if dn ≠ "" then dn else nm) = "" → em = "" → attendeeLine ⟨dn, nm, em⟩ = none) := by
  refine ⟨?_, ?_, ?_, ?_, ?_⟩
  · intro h
    simp [attendeeLine, h]
  · by_cases h : nm = "" <;> simp [attendeeLine, h]
  · intro h he
    simp [attendeeLine, h, he]
  · intro h he
    simp [attendeeLine, h, he]
  · intro h he
    simp [attendeeLine, h, he]

/-- C10 witness: displayName "Ann" wins over name "Bob" or "Carl" and pairs
with the email. -/
theorem claim_C10_witness :
    attendeeLine ⟨"Ann", "Bob", "a@x.com"⟩ = attendeeLine ⟨"Ann", "Carl", "a@x.com"⟩ ∧
    attendeeLine ⟨"Ann", "Bob", "a@x.com"⟩ = some ("Ann" ++ " " ++ "a@x.com") :=
  ⟨(claim_C10 "Ann" "Bob" "Carl" "a@x.com").1 (by decide),
   (claim_C10 "Ann" "Bob" "Carl" "a@x.com").2.2.1 (by decide) (by decide)⟩

end Fireflies
